import Mathlib

/-!
Shallow embedding of the multi-modal emotion fusion core of the
Emotional-Assistant-AI repository:

* `src/lib/multi-modal-emotion.ts` (label normalizer, text-embedded emotion
  extractor, weighted-voting and majority-voting fusion, formatter), and
* the face-api based temporal facial aggregator
  (`detectFacialExpressionMultiFrame`, `mapFaceApiEmotion`).

Strings are modelled as `List Char` (`Str`), JavaScript numbers as `ℚ`
(all weights and confidences in the source are small exact decimals, and no
claim under study depends on binary floating-point rounding).  JavaScript
objects used as string-keyed dictionaries are modelled as insertion-ordered
association lists, which matches the specified enumeration order of
`Object.entries` for string keys.  `Array.prototype.sort` with comparator
`(a, b) => b[1] - a[1]` is a stable descending sort by value; it is modelled
with `List.insertionSort` under the relation `b.2 ≤ a.2`, which is likewise
stable and descending.
-/

namespace EmotionFusion

/-- Strings of the embedded program. -/
abbrev Str := List Char

/-- Models `String.prototype.toLowerCase` (ASCII suffices for all labels used). -/
def strLower (s : Str) : Str := s.map Char.toLower

/-- Models `s.charAt(0).toUpperCase() + s.slice(1)` from `normalizeEmotion`. -/
def capitalizeFirst : Str → Str
  | [] => []
  | c :: cs => c.toUpper :: cs

/-- Models `String.prototype.trim` (strip leading and trailing whitespace). -/
def trimStr (s : Str) : Str :=
  ((s.dropWhile Char.isWhitespace).reverse.dropWhile Char.isWhitespace).reverse

/-- `needle` is a prefix of `hay` (Boolean, structural). -/
def prefB : Str → Str → Bool
  | [], _ => true
  | _ :: _, [] => false
  | a :: as, b :: bs => a == b && prefB as bs

/-- Models `hay.includes(needle)`: `needle` occurs contiguously in `hay`. -/
def containsSub (hay needle : Str) : Bool :=
  match hay with
  | [] => needle.isEmpty
  | _ :: t => prefB needle hay || containsSub t needle

/-- Models JavaScript `x || y` on an optional string: `null`/`undefined` and
the empty string are falsy and select `y`. -/
def jsOrElse (x : Option Str) (y : Str) : Str :=
  match x with
  | some s => if s.isEmpty then y else s
  | none => y

/-- The fixed taxonomy `STANDARD_EMOTIONS` from the source, in its order. -/
def STANDARD_EMOTIONS : List Str :=
  ["Happy".data, "Sad".data, "Angry".data, "Fearful".data, "Surprised".data,
   "Disgusted".data, "Neutral".data, "Anxious".data, "Excited".data,
   "Calm".data, "Frustrated".data, "Confused".data]

/-- `normalizeEmotion` from the source: trim, exact case-insensitive match
against the taxonomy, then the fixed if-chain of substring keywords on the
lowercased trimmed input, finally the capitalize-first-character fallback. -/
def normalizeEmotion (emotion : Str) : Str :=
  let normalized := trimStr emotion
  match STANDARD_EMOTIONS.find? (fun std => strLower std == strLower normalized) with
  | some m => m
  | none =>
    let le := strLower normalized
    if containsSub le "happ".data || containsSub le "joy".data then "Happy".data
    else if containsSub le "sad".data || containsSub le "depress".data then "Sad".data
    else if containsSub le "ang".data || containsSub le "mad".data then "Angry".data
    else if containsSub le "fear".data || containsSub le "scared".data then "Fearful".data
    else if containsSub le "surpris".data || containsSub le "shock".data then "Surprised".data
    else if containsSub le "disgust".data then "Disgusted".data
    else if containsSub le "neutr".data || containsSub le "calm".data then "Neutral".data
    else if containsSub le "anxi".data || containsSub le "worr".data then "Anxious".data
    else if containsSub le "excit".data then "Excited".data
    else if containsSub le "frustrat".data then "Frustrated".data
    else if containsSub le "confus".data then "Confused".data
    else capitalizeFirst normalized

/-- `extractEmotionFromText` from the source: empty text yields `none`
(`if (!text) return null`); otherwise scan the lowercased text for a taxonomy
member name (for-loop in taxonomy order), then the second keyword if-chain,
else `none`. -/
def extractEmotionFromText (text : Str) : Option Str :=
  if text.isEmpty then none
  else
    let lowerText := strLower text
    match STANDARD_EMOTIONS.find? (fun e => containsSub lowerText (strLower e)) with
    | some e => some e
    | none =>
      if containsSub lowerText "happy".data || containsSub lowerText "joy".data then some "Happy".data
      else if containsSub lowerText "sad".data || containsSub lowerText "unhappy".data then some "Sad".data
      else if containsSub lowerText "angry".data || containsSub lowerText "upset".data then some "Angry".data
      else if containsSub lowerText "afraid".data || containsSub lowerText "scared".data then some "Fearful".data
      else if containsSub lowerText "surprised".data || containsSub lowerText "amazed".data then some "Surprised".data
      else if containsSub lowerText "disgusted".data then some "Disgusted".data
      else if containsSub lowerText "neutral".data || containsSub lowerText "calm".data then some "Neutral".data
      else if containsSub lowerText "anxious".data || containsSub lowerText "worried".data then some "Anxious".data
      else if containsSub lowerText "excited".data then some "Excited".data
      else if containsSub lowerText "frustrated".data then some "Frustrated".data
      else if containsSub lowerText "confused".data then some "Confused".data
      else none

/-- An `{emotion, confidence}` pair as produced by the facial channel. -/
structure EmotionScore where
  emotion : Str
  confidence : ℚ
deriving DecidableEq

/-- `MultiModalEmotionInput`: three independently optional channels. -/
structure MultiModalEmotionInput where
  facialEmotion : Option EmotionScore
  voiceEmotion : Option Str
  textEmotion : Option Str
deriving DecidableEq

/-- The `breakdown` record of a fused result; absent channels are `none`. -/
structure Breakdown where
  facial : Option Str
  voice : Option Str
  text : Option Str
deriving DecidableEq

/-- The all-absent breakdown `{}`. -/
def Breakdown.empty : Breakdown := ⟨none, none, none⟩

/-- `FusedEmotionResult` from the source. -/
structure FusedEmotionResult where
  finalEmotion : Str
  confidence : ℚ
  breakdown : Breakdown
  fusionMethod : Str
deriving DecidableEq

/-- Models `votes[e] = (votes[e] || 0) + w` on a JavaScript object used as a
dictionary: update the entry in place if the key exists, otherwise append a
fresh entry at the end (insertion order). -/
def addVote : List (Str × ℚ) → Str → ℚ → List (Str × ℚ)
  | [], e, w => [(e, w)]
  | (k, v) :: rest, e, w =>
    if e == k then (k, v + w) :: rest else (k, v) :: addVote rest e w

/-- Models `Object.entries(votes).sort((a, b) => b[1] - a[1])`: a stable
sort into non-increasing order of the vote value. -/
def sortVotes (votes : List (Str × ℚ)) : List (Str × ℚ) :=
  votes.insertionSort (fun a b => b.2 ≤ a.2)

/-- JavaScript truthiness of the facial channel (`if (input.facialEmotion)`):
any object is truthy, `null`/`undefined` are falsy. -/
def presentFacial (input : MultiModalEmotionInput) : Bool :=
  input.facialEmotion.isSome

/-- JavaScript truthiness of the voice channel (`if (input.voiceEmotion)`):
`null`, `undefined` and the empty string are falsy. -/
def presentVoice (input : MultiModalEmotionInput) : Bool :=
  match input.voiceEmotion with
  | some v => !v.isEmpty
  | none => false

/-- JavaScript truthiness of the text channel, as for the voice channel. -/
def presentText (input : MultiModalEmotionInput) : Bool :=
  match input.textEmotion with
  | some t => !t.isEmpty
  | none => false

/-- The label a voice or text channel contributes:
`normalizeEmotion(extractEmotionFromText(raw) || raw)` from the source. -/
def channelLabel (raw : Str) : Str :=
  normalizeEmotion (jsOrElse (extractEmotionFromText raw) raw)

/-- The `if (input.facialEmotion) { ... }` block of both fusion strategies:
add weight `w fe` to the normalized facial label.  `w` is the weight rule of
the strategy (tiered for weighted voting, constant 1 for majority voting). -/
def applyFacial (w : EmotionScore → ℚ) (input : MultiModalEmotionInput)
    (votes : List (Str × ℚ)) : List (Str × ℚ) :=
  match input.facialEmotion with
  | some fe => addVote votes (normalizeEmotion fe.emotion) (w fe)
  | none => votes

/-- The `if (input.voiceEmotion) { ... }` block of both fusion strategies:
add weight `w` to `normalizeEmotion(extractEmotionFromText(v) || v)`. -/
def applyVoice (w : ℚ) (input : MultiModalEmotionInput)
    (votes : List (Str × ℚ)) : List (Str × ℚ) :=
  match input.voiceEmotion with
  | some v => if v.isEmpty then votes else addVote votes (channelLabel v) w
  | none => votes

/-- The `if (input.textEmotion) { ... }` block of both fusion strategies. -/
def applyText (w : ℚ) (input : MultiModalEmotionInput)
    (votes : List (Str × ℚ)) : List (Str × ℚ) :=
  match input.textEmotion with
  | some t => if t.isEmpty then votes else addVote votes (channelLabel t) w
  | none => votes

/-- The vote accumulator built by `weightedVotingFusion`: facial
(weight `0.5` when confidence `> 0.6`, else `0.3`), then voice (`0.3`),
then text (`0.2`), in that fixed order starting from the empty dictionary.
The source builds this dictionary and the breakdown in one pass; they are
split here into two parallel definitions over the same input. -/
def weightedVotes (input : MultiModalEmotionInput) : List (Str × ℚ) :=
  applyText 0.2 input
    (applyVoice 0.3 input
      (applyFacial (fun fe => if fe.confidence > 0.6 then 0.5 else 0.3) input []))

/-- The `breakdown` record built by `weightedVotingFusion` (and, identically,
by `majorityVotingFusion`): each present channel's normalized label. -/
def fusionBreakdown (input : MultiModalEmotionInput) : Breakdown :=
  { facial :=
      match input.facialEmotion with
      | some fe => some (normalizeEmotion fe.emotion)
      | none => none
    voice :=
      match input.voiceEmotion with
      | some v => if v.isEmpty then none else some (channelLabel v)
      | none => none
    text :=
      match input.textEmotion with
      | some t => if t.isEmpty then none else some (channelLabel t)
      | none => none }

/-- `weightedVotingFusion` from the source: accumulate the weighted votes,
sort them descending (stable), and return the top entry with its weight
clamped by `Math.min(score, 1.0)`; with no votes, the Neutral/0.5 fallback. -/
def weightedVotingFusion (input : MultiModalEmotionInput) : FusedEmotionResult :=
  match sortVotes (weightedVotes input) with
  | [] =>
    { finalEmotion := "Neutral".data, confidence := 0.5,
      breakdown := fusionBreakdown input, fusionMethod := "weighted-voting".data }
  | (e, score) :: _ =>
    { finalEmotion := e, confidence := min score 1,
      breakdown := fusionBreakdown input, fusionMethod := "weighted-voting".data }

/-- The vote accumulator built by `majorityVotingFusion`: each present
channel contributes a unit vote, in the same facial, voice, text order. -/
def majorityVotes (input : MultiModalEmotionInput) : List (Str × ℚ) :=
  applyText 1 input (applyVoice 1 input (applyFacial (fun _ => 1) input []))

/-- `majorityVotingFusion` from the source: unit votes, stable descending
sort, confidence `votes / totalVotes`; same Neutral/0.5 fallback. -/
def majorityVotingFusion (input : MultiModalEmotionInput) : FusedEmotionResult :=
  match sortVotes (majorityVotes input) with
  | [] =>
    { finalEmotion := "Neutral".data, confidence := 0.5,
      breakdown := fusionBreakdown input, fusionMethod := "majority-voting".data }
  | (e, votes) :: _ =>
    { finalEmotion := e,
      confidence := votes / ((majorityVotes input).foldl (fun a p => a + p.2) 0),
      breakdown := fusionBreakdown input, fusionMethod := "majority-voting".data }

/-- The fusion strategy selector argument of `fuseEmotions`. -/
inductive Strategy where
  | weighted
  | majority
deriving DecidableEq

/-- `fuseEmotions` from the source: dispatch on the strategy, defaulting to
weighted voting for anything that is not `'majority'`. -/
def fuseEmotions (input : MultiModalEmotionInput) (strategy : Strategy) :
    FusedEmotionResult :=
  match strategy with
  | .majority => majorityVotingFusion input
  | .weighted => weightedVotingFusion input

/-- Models `emotionCounts[e].push(c)` (with creation of a fresh singleton
array on first sight of `e`) on a JavaScript object used as a dictionary of
arrays, in insertion order. -/
def pushSample : List (Str × List ℚ) → Str → ℚ → List (Str × List ℚ)
  | [], e, c => [(e, [c])]
  | (k, cs) :: rest, e, c =>
    if e == k then (k, cs ++ [c]) :: rest else (k, cs) :: pushSample rest e c

/-- The aggregated result of `detectFacialExpressionMultiFrame`. -/
structure AggregatedEmotion where
  emotion : Str
  confidence : ℚ
  allEmotions : List (Str × ℚ)
deriving DecidableEq

/-- `detectFacialExpressionMultiFrame` from the face-detection module.  The
per-frame classifier calls and the timed waits are external I/O; the run is
modelled by the list of classifier outcomes, one `Option EmotionScore` per
attempted frame (`none` = no face detected, dropped).  With no detections the
function returns `null`; otherwise it groups the samples by raw emotion label
(insertion-ordered dictionary), averages the confidences of each group, and
takes the dominant entry by `reduce((prev, cur) => cur[1] > prev[1] ? cur :
prev)` over the averaged entries. -/
def detectFacialExpressionMultiFrame (frames : List (Option EmotionScore)) :
    Option AggregatedEmotion :=
  let detections := frames.filterMap id
  match detections with
  | [] => none
  | _ =>
    let emotionCounts :=
      detections.foldl (fun g d => pushSample g d.emotion d.confidence) []
    let avgEmotions :=
      emotionCounts.map (fun p => (p.1, p.2.foldl (fun a b => a + b) 0 / (p.2.length : ℚ)))
    match avgEmotions with
    | [] => none
    | h :: t =>
      let dominant := t.foldl (fun prev cur => if prev.2 < cur.2 then cur else prev) h
      some { emotion := dominant.1, confidence := dominant.2, allEmotions := avgEmotions }

/-- `mapFaceApiEmotion` from the face-detection module: the literal
seven-entry `emotionMap` dictionary, with `emotionMap[x] || x` modelled as a
lookup falling back to the input (all mapped values are non-empty, so the
JavaScript `||` never takes its right branch on a hit). -/
def faceApiEmotionMap : List (Str × Str) :=
  [("neutral".data, "Neutral".data), ("happy".data, "Happy".data),
   ("sad".data, "Sad".data), ("angry".data, "Angry".data),
   ("fearful".data, "Fearful".data), ("disgusted".data, "Disgusted".data),
   ("surprised".data, "Surprised".data)]

/-- `mapFaceApiEmotion` itself. -/
def mapFaceApiEmotion (faceApiEmotion : Str) : Str :=
  (faceApiEmotionMap.lookup faceApiEmotion).getD faceApiEmotion

/-!  Spec-side definitions, written from the specification's wording, to be
compared with the code-side definitions above. -/

/-- Spec-side: the weight the facial channel contributes to label `e`
("add weight 0.5 if its confidence > 0.6, else 0.3"). -/
def facialWeight (input : MultiModalEmotionInput) (e : Str) : ℚ :=
  match input.facialEmotion with
  | some fe =>
    if normalizeEmotion fe.emotion = e then
      (if fe.confidence > 0.6 then 0.5 else 0.3)
    else 0
  | none => 0

/-- Spec-side: the weight the voice channel contributes to label `e`
(a present voice channel "adds 0.3"). -/
def voiceWeight (input : MultiModalEmotionInput) (e : Str) : ℚ :=
  match input.voiceEmotion with
  | some v => if ¬v.isEmpty ∧ channelLabel v = e then 0.3 else 0
  | none => 0

/-- Spec-side: the weight the text channel contributes to label `e`
(a present text channel "adds 0.2"). -/
def textWeight (input : MultiModalEmotionInput) (e : Str) : ℚ :=
  match input.textEmotion with
  | some t => if ¬t.isEmpty ∧ channelLabel t = e then 0.2 else 0
  | none => 0

/-- Spec-side: the total weight accumulated on label `e` under the weighted
strategy — the sum of the three per-channel contributions. -/
def totalWeight (input : MultiModalEmotionInput) (e : Str) : ℚ :=
  facialWeight input e + voiceWeight input e + textWeight input e

/-- Spec-side: the extractor's second keyword table as the specification
words it — an ordered rule list, each rule a set of keywords and a target
label, evaluated in order with the first matching rule winning. -/
def extractKeywordRules : List (List Str × Str) :=
  [(["happy".data, "joy".data], "Happy".data),
   (["sad".data, "unhappy".data], "Sad".data),
   (["angry".data, "upset".data], "Angry".data),
   (["afraid".data, "scared".data], "Fearful".data),
   (["surprised".data, "amazed".data], "Surprised".data),
   (["disgusted".data], "Disgusted".data),
   (["neutral".data, "calm".data], "Neutral".data),
   (["anxious".data, "worried".data], "Anxious".data),
   (["excited".data], "Excited".data),
   (["frustrated".data], "Frustrated".data),
   (["confused".data], "Confused".data)]

/-- Spec-side: evaluate an ordered rule list in order; the first rule one of
whose keywords occurs in the text wins. -/
def firstRule (lowerText : Str) : List (List Str × Str) → Option Str
  | [] => none
  | (kws, label) :: rest =>
    if kws.any (fun k => containsSub lowerText k) then some label
    else firstRule lowerText rest

/-- Spec-side restatement of the extractor: first taxonomy member (in
canonical order) occurring case-insensitively in the text; otherwise the
first matching rule of `extractKeywordRules`; otherwise `none`. -/
def extractSpec (text : Str) : Option Str :=
  if text.isEmpty then none
  else
    let lowerText := strLower text
    match STANDARD_EMOTIONS.find? (fun e => containsSub lowerText (strLower e)) with
    | some e => some e
    | none => firstRule lowerText extractKeywordRules

/-- Spec-side: the first entry of the list attaining the maximal value —
"the group with the highest average confidence; ties broken by
first-encountered insertion order". -/
def firstMax : List (Str × ℚ) → Option (Str × ℚ)
  | [] => none
  | p :: t =>
    match firstMax t with
    | none => some p
    | some q => if p.2 < q.2 then some q else some p

/-- Spec-side: the confidences reported for label `e` among the collected
samples, in sample order. -/
def confsOf (e : Str) (ds : List EmotionScore) : List ℚ :=
  ds.filterMap (fun d => if d.emotion == e then some d.confidence else none)

/-!  Helper lemmas about the dictionary accumulators. -/

theorem addVote_ne_nil (votes : List (Str × ℚ)) (e : Str) (w : ℚ) :
    addVote votes e w ≠ [] := by
  cases votes with
  | nil => simp [addVote]
  | cons p rest =>
    obtain ⟨k, v⟩ := p
    simp only [addVote]
    split <;> simp

theorem lookup_addVote (votes : List (Str × ℚ)) (e : Str) (w : ℚ) (k : Str) :
    (addVote votes e w).lookup k =
      if k = e then some (((votes.lookup k).getD 0) + w) else votes.lookup k := by
  induction votes with
  | nil =>
    by_cases h : k = e
    · subst h; simp [addVote, List.lookup_cons]
    · simp [addVote, List.lookup_cons, beq_false_of_ne h, h]
  | cons p rest ih =>
    obtain ⟨k', v⟩ := p
    by_cases he : e = k'
    · subst he
      by_cases hk : k = e
      · subst hk; simp [addVote, List.lookup_cons]
      · simp [addVote, List.lookup_cons, beq_false_of_ne hk, hk]
    · by_cases hk : k = k'
      · subst hk
        have hne : ¬k = e := fun h => he h.symm
        simp [addVote, beq_false_of_ne he, List.lookup_cons, hne]
      · simp [addVote, beq_false_of_ne he, List.lookup_cons, beq_false_of_ne hk, ih]

theorem mem_keys_addVote {k : Str} (votes : List (Str × ℚ)) (e : Str) (w : ℚ) :
    k ∈ (addVote votes e w).map Prod.fst ↔ k = e ∨ k ∈ votes.map Prod.fst := by
  induction votes with
  | nil => simp [addVote]
  | cons p rest ih =>
    obtain ⟨k', v⟩ := p
    by_cases he : e = k'
    · subst he
      by_cases hk : k = e <;> simp [addVote, hk]
    · simp only [addVote, beq_false_of_ne he, Bool.false_eq_true, if_false,
        List.map_cons, List.mem_cons, ih]
      tauto

theorem nodupKeys_addVote {votes : List (Str × ℚ)} (e : Str) (w : ℚ)
    (h : (votes.map Prod.fst).Nodup) : ((addVote votes e w).map Prod.fst).Nodup := by
  induction votes with
  | nil => simp [addVote]
  | cons p rest ih =>
    obtain ⟨k', v⟩ := p
    simp only [List.map_cons, List.nodup_cons] at h
    by_cases he : e = k'
    · subst he
      simpa [addVote] using h
    · simp only [addVote, beq_false_of_ne he, Bool.false_eq_true, if_false,
        List.map_cons, List.nodup_cons]
      refine ⟨fun hmem => ?_, ih h.2⟩
      rw [mem_keys_addVote] at hmem
      rcases hmem with h1 | h1
      · exact he h1.symm
      · exact h.1 h1

theorem lookup_eq_of_mem {votes : List (Str × ℚ)} {p : Str × ℚ}
    (hnd : (votes.map Prod.fst).Nodup) (hp : p ∈ votes) :
    votes.lookup p.1 = some p.2 := by
  induction votes with
  | nil => cases hp
  | cons q rest ih =>
    obtain ⟨k', v⟩ := q
    simp only [List.map_cons, List.nodup_cons] at hnd
    rcases List.mem_cons.mp hp with h | h
    · subst h
      simp [List.lookup_cons]
    · have hne : p.1 ≠ k' := by
        intro hk
        exact hnd.1 (hk ▸ List.mem_map_of_mem Prod.fst h)
      simp [List.lookup_cons, beq_false_of_ne hne, ih hnd.2 h]

theorem sortVotes_perm (votes : List (Str × ℚ)) : (sortVotes votes).Perm votes :=
  List.perm_insertionSort _ votes

theorem head_mem_of_sortVotes {votes : List (Str × ℚ)} {p : Str × ℚ}
    {rest : List (Str × ℚ)} (h : sortVotes votes = p :: rest) : p ∈ votes := by
  have hmem := (sortVotes_perm votes).mem_iff (a := p)
  rw [h] at hmem
  exact hmem.mp (List.mem_cons_self _ _)

theorem sortVotes_ne_nil {votes : List (Str × ℚ)} (h : votes ≠ []) :
    sortVotes votes ≠ [] := by
  intro hs
  apply h
  have hlen := (sortVotes_perm votes).length_eq
  rw [hs] at hlen
  exact List.length_eq_zero.mp hlen.symm

theorem getD_lookup_applyFacial (w : EmotionScore → ℚ) (input : MultiModalEmotionInput)
    (votes : List (Str × ℚ)) (e : Str) :
    ((applyFacial w input votes).lookup e).getD 0 =
      ((votes.lookup e).getD 0) +
        (match input.facialEmotion with
         | some fe => if normalizeEmotion fe.emotion = e then w fe else 0
         | none => 0) := by
  cases hf : input.facialEmotion with
  | none => simp [applyFacial, hf]
  | some fe =>
    simp only [applyFacial, hf, lookup_addVote]
    by_cases h : e = normalizeEmotion fe.emotion
    · simp [h]
    · simp only [h, if_false]
      simp
      exact fun hh => absurd hh.symm h

theorem getD_lookup_applyVoice (w : ℚ) (input : MultiModalEmotionInput)
    (votes : List (Str × ℚ)) (e : Str) :
    ((applyVoice w input votes).lookup e).getD 0 =
      ((votes.lookup e).getD 0) +
        (match input.voiceEmotion with
         | some v => if ¬v.isEmpty ∧ channelLabel v = e then w else 0
         | none => 0) := by
  cases hv : input.voiceEmotion with
  | none => simp [applyVoice, hv]
  | some v =>
    simp only [applyVoice, hv]
    by_cases hemp : v.isEmpty
    · simp [hemp]
    · simp only [hemp, Bool.false_eq_true, if_false, lookup_addVote]
      by_cases h : e = channelLabel v
      · simp [h, hemp]
      · simp [h, hemp]
        exact fun hh => absurd hh.symm h

theorem getD_lookup_applyText (w : ℚ) (input : MultiModalEmotionInput)
    (votes : List (Str × ℚ)) (e : Str) :
    ((applyText w input votes).lookup e).getD 0 =
      ((votes.lookup e).getD 0) +
        (match input.textEmotion with
         | some t => if ¬t.isEmpty ∧ channelLabel t = e then w else 0
         | none => 0) := by
  cases ht : input.textEmotion with
  | none => simp [applyText, ht]
  | some t =>
    simp only [applyText, ht]
    by_cases hemp : t.isEmpty
    · simp [hemp]
    · simp only [hemp, Bool.false_eq_true, if_false, lookup_addVote]
      by_cases h : e = channelLabel t
      · simp [h, hemp]
      · simp [h, hemp]
        exact fun hh => absurd hh.symm h

theorem nodupKeys_applyFacial (w : EmotionScore → ℚ) (input : MultiModalEmotionInput)
    {votes : List (Str × ℚ)} (h : (votes.map Prod.fst).Nodup) :
    ((applyFacial w input votes).map Prod.fst).Nodup := by
  cases hf : input.facialEmotion with
  | none => simpa [applyFacial, hf] using h
  | some fe => simp only [applyFacial, hf]; exact nodupKeys_addVote _ _ h

theorem nodupKeys_applyVoice (w : ℚ) (input : MultiModalEmotionInput)
    {votes : List (Str × ℚ)} (h : (votes.map Prod.fst).Nodup) :
    ((applyVoice w input votes).map Prod.fst).Nodup := by
  cases hv : input.voiceEmotion with
  | none => simpa [applyVoice, hv] using h
  | some v =>
    simp only [applyVoice, hv]
    by_cases hemp : v.isEmpty
    · simpa [hemp] using h
    · simp only [hemp, Bool.false_eq_true, if_false]
      exact nodupKeys_addVote _ _ h

theorem nodupKeys_applyText (w : ℚ) (input : MultiModalEmotionInput)
    {votes : List (Str × ℚ)} (h : (votes.map Prod.fst).Nodup) :
    ((applyText w input votes).map Prod.fst).Nodup := by
  cases ht : input.textEmotion with
  | none => simpa [applyText, ht] using h
  | some t =>
    simp only [applyText, ht]
    by_cases hemp : t.isEmpty
    · simpa [hemp] using h
    · simp only [hemp, Bool.false_eq_true, if_false]
      exact nodupKeys_addVote _ _ h

theorem weightedVotes_nodupKeys (input : MultiModalEmotionInput) :
    ((weightedVotes input).map Prod.fst).Nodup :=
  nodupKeys_applyText _ _ (nodupKeys_applyVoice _ _ (nodupKeys_applyFacial _ _ (by simp)))

theorem majorityVotes_nodupKeys (input : MultiModalEmotionInput) :
    ((majorityVotes input).map Prod.fst).Nodup :=
  nodupKeys_applyText _ _ (nodupKeys_applyVoice _ _ (nodupKeys_applyFacial _ _ (by simp)))

theorem getD_lookup_weightedVotes (input : MultiModalEmotionInput) (e : Str) :
    ((weightedVotes input).lookup e).getD 0 = totalWeight input e := by
  simp only [weightedVotes, getD_lookup_applyText, getD_lookup_applyVoice,
    getD_lookup_applyFacial, List.lookup_nil, Option.getD_none, totalWeight,
    facialWeight, voiceWeight, textWeight]
  ring

theorem mem_weightedVotes_val {input : MultiModalEmotionInput} {p : Str × ℚ}
    (hp : p ∈ weightedVotes input) : p.2 = totalWeight input p.1 := by
  have hl := lookup_eq_of_mem (weightedVotes_nodupKeys input) hp
  have h2 := getD_lookup_weightedVotes input p.1
  rw [hl] at h2
  simpa using h2

theorem applyFacial_ne_nil (w : EmotionScore → ℚ) (input : MultiModalEmotionInput)
    (votes : List (Str × ℚ)) (h : presentFacial input = true) :
    applyFacial w input votes ≠ [] := by
  cases hf : input.facialEmotion with
  | none => simp [presentFacial, hf] at h
  | some fe => simp only [applyFacial, hf]; exact addVote_ne_nil _ _ _

theorem applyVoice_ne_nil (w : ℚ) (input : MultiModalEmotionInput)
    (votes : List (Str × ℚ)) (h : presentVoice input = true) :
    applyVoice w input votes ≠ [] := by
  cases hv : input.voiceEmotion with
  | none => simp [presentVoice, hv] at h
  | some v =>
    simp only [presentVoice, hv, Bool.not_eq_true'] at h
    simp only [applyVoice, hv, h, Bool.false_eq_true, if_false]
    exact addVote_ne_nil _ _ _

theorem applyText_ne_nil (w : ℚ) (input : MultiModalEmotionInput)
    (votes : List (Str × ℚ)) (h : presentText input = true) :
    applyText w input votes ≠ [] := by
  cases ht : input.textEmotion with
  | none => simp [presentText, ht] at h
  | some t =>
    simp only [presentText, ht, Bool.not_eq_true'] at h
    simp only [applyText, ht, h, Bool.false_eq_true, if_false]
    exact addVote_ne_nil _ _ _

theorem applyVoice_keep_ne_nil (w : ℚ) (input : MultiModalEmotionInput)
    {votes : List (Str × ℚ)} (h : votes ≠ []) : applyVoice w input votes ≠ [] := by
  cases hv : input.voiceEmotion with
  | none => simpa [applyVoice, hv] using h
  | some v =>
    simp only [applyVoice, hv]
    by_cases hemp : v.isEmpty
    · simpa [hemp] using h
    · simp only [hemp, Bool.false_eq_true, if_false]
      exact addVote_ne_nil _ _ _

theorem applyText_keep_ne_nil (w : ℚ) (input : MultiModalEmotionInput)
    {votes : List (Str × ℚ)} (h : votes ≠ []) : applyText w input votes ≠ [] := by
  cases ht : input.textEmotion with
  | none => simpa [applyText, ht] using h
  | some t =>
    simp only [applyText, ht]
    by_cases hemp : t.isEmpty
    · simpa [hemp] using h
    · simp only [hemp, Bool.false_eq_true, if_false]
      exact addVote_ne_nil _ _ _

theorem votesChain_ne_nil (wf : EmotionScore → ℚ) (wv wt : ℚ)
    (input : MultiModalEmotionInput)
    (h : (presentFacial input || presentVoice input || presentText input) = true) :
    applyText wt input (applyVoice wv input (applyFacial wf input [])) ≠ [] := by
  simp only [Bool.or_eq_true] at h
  rcases h with (hf | hv) | ht
  · exact applyText_keep_ne_nil _ _ (applyVoice_keep_ne_nil _ _ (applyFacial_ne_nil _ _ _ hf))
  · exact applyText_keep_ne_nil _ _ (applyVoice_ne_nil _ _ _ hv)
  · exact applyText_ne_nil _ _ _ ht

theorem weightedVotes_ne_nil (input : MultiModalEmotionInput)
    (h : (presentFacial input || presentVoice input || presentText input) = true) :
    weightedVotes input ≠ [] :=
  votesChain_ne_nil _ _ _ input h

theorem majorityVotes_ne_nil (input : MultiModalEmotionInput)
    (h : (presentFacial input || presentVoice input || presentText input) = true) :
    majorityVotes input ≠ [] :=
  votesChain_ne_nil _ _ _ input h

theorem weighted_head (input : MultiModalEmotionInput)
    (h : weightedVotes input ≠ []) :
    ∃ p ∈ weightedVotes input,
      weightedVotingFusion input =
        ⟨p.1, min p.2 1, fusionBreakdown input, "weighted-voting".data⟩ := by
  cases hs : sortVotes (weightedVotes input) with
  | nil => exact absurd hs (sortVotes_ne_nil h)
  | cons p rest =>
    refine ⟨p, head_mem_of_sortVotes hs, ?_⟩
    obtain ⟨e, s⟩ := p
    simp [weightedVotingFusion, hs]

theorem majority_head (input : MultiModalEmotionInput)
    (h : majorityVotes input ≠ []) :
    ∃ p ∈ majorityVotes input,
      majorityVotingFusion input =
        ⟨p.1, p.2 / ((majorityVotes input).foldl (fun a q => a + q.2) 0),
         fusionBreakdown input, "majority-voting".data⟩ := by
  cases hs : sortVotes (majorityVotes input) with
  | nil => exact absurd hs (sortVotes_ne_nil h)
  | cons p rest =>
    refine ⟨p, head_mem_of_sortVotes hs, ?_⟩
    obtain ⟨e, s⟩ := p
    simp [majorityVotingFusion, hs]

theorem mem_keys_applyFacial_ex {k : Str} (w : EmotionScore → ℚ)
    (input : MultiModalEmotionInput) (votes : List (Str × ℚ))
    (h : k ∈ (applyFacial w input votes).map Prod.fst) :
    k ∈ votes.map Prod.fst ∨ ∃ s, k = normalizeEmotion s := by
  cases hf : input.facialEmotion with
  | none => left; simpa [applyFacial, hf] using h
  | some fe =>
    simp only [applyFacial, hf] at h
    rcases (mem_keys_addVote votes _ _).mp h with h1 | h1
    · exact Or.inr ⟨fe.emotion, h1⟩
    · exact Or.inl h1

theorem mem_keys_applyVoice_ex {k : Str} (w : ℚ)
    (input : MultiModalEmotionInput) (votes : List (Str × ℚ))
    (h : k ∈ (applyVoice w input votes).map Prod.fst) :
    k ∈ votes.map Prod.fst ∨ ∃ s, k = normalizeEmotion s := by
  cases hv : input.voiceEmotion with
  | none => left; simpa [applyVoice, hv] using h
  | some v =>
    simp only [applyVoice, hv] at h
    by_cases hemp : v.isEmpty
    · left; simpa [hemp] using h
    · simp only [hemp, Bool.false_eq_true, if_false] at h
      rcases (mem_keys_addVote votes _ _).mp h with h1 | h1
      · exact Or.inr ⟨jsOrElse (extractEmotionFromText v) v, h1⟩
      · exact Or.inl h1

theorem mem_keys_applyText_ex {k : Str} (w : ℚ)
    (input : MultiModalEmotionInput) (votes : List (Str × ℚ))
    (h : k ∈ (applyText w input votes).map Prod.fst) :
    k ∈ votes.map Prod.fst ∨ ∃ s, k = normalizeEmotion s := by
  cases ht : input.textEmotion with
  | none => left; simpa [applyText, ht] using h
  | some t =>
    simp only [applyText, ht] at h
    by_cases hemp : t.isEmpty
    · left; simpa [hemp] using h
    · simp only [hemp, Bool.false_eq_true, if_false] at h
      rcases (mem_keys_addVote votes _ _).mp h with h1 | h1
      · exact Or.inr ⟨jsOrElse (extractEmotionFromText t) t, h1⟩
      · exact Or.inl h1

theorem votesChain_keys_normalize {k : Str} (wf : EmotionScore → ℚ) (wv wt : ℚ)
    (input : MultiModalEmotionInput)
    (h : k ∈ (applyText wt input (applyVoice wv input (applyFacial wf input []))).map
      Prod.fst) :
    ∃ s, k = normalizeEmotion s := by
  rcases mem_keys_applyText_ex _ _ _ h with h1 | h1
  · rcases mem_keys_applyVoice_ex _ _ _ h1 with h2 | h2
    · rcases mem_keys_applyFacial_ex _ _ _ h2 with h3 | h3
      · simp at h3
      · exact h3
    · exact h2
  · exact h1

/-!  Helper lemmas about the facial multi-frame aggregation. -/

theorem pushSample_ne_nil (g : List (Str × List ℚ)) (e : Str) (c : ℚ) :
    pushSample g e c ≠ [] := by
  cases g with
  | nil => simp [pushSample]
  | cons p rest =>
    obtain ⟨k, cs⟩ := p
    simp only [pushSample]
    split <;> simp

theorem foldl_pushSample_ne_nil (ds : List EmotionScore)
    {g : List (Str × List ℚ)} (h : g ≠ []) :
    ds.foldl (fun g d => pushSample g d.emotion d.confidence) g ≠ [] := by
  induction ds generalizing g with
  | nil => simpa using h
  | cons d ds ih => exact ih (pushSample_ne_nil _ _ _)

theorem lookup_pushSample (g : List (Str × List ℚ)) (e : Str) (c : ℚ) (k : Str) :
    (pushSample g e c).lookup k =
      if k = e then some (((g.lookup k).getD []) ++ [c]) else g.lookup k := by
  induction g with
  | nil =>
    by_cases h : k = e
    · subst h; simp [pushSample, List.lookup_cons]
    · simp [pushSample, List.lookup_cons, beq_false_of_ne h, h]
  | cons p rest ih =>
    obtain ⟨k', cs⟩ := p
    by_cases he : e = k'
    · subst he
      by_cases hk : k = e
      · subst hk; simp [pushSample, List.lookup_cons]
      · simp [pushSample, List.lookup_cons, beq_false_of_ne hk, hk]
    · by_cases hk : k = k'
      · subst hk
        have hne : ¬k = e := fun h => he h.symm
        simp [pushSample, beq_false_of_ne he, List.lookup_cons, hne]
      · simp [pushSample, beq_false_of_ne he, List.lookup_cons, beq_false_of_ne hk, ih]

theorem mem_keys_pushSample {k : Str} (g : List (Str × List ℚ)) (e : Str) (c : ℚ) :
    k ∈ (pushSample g e c).map Prod.fst ↔ k = e ∨ k ∈ g.map Prod.fst := by
  induction g with
  | nil => simp [pushSample]
  | cons p rest ih =>
    obtain ⟨k', cs⟩ := p
    by_cases he : e = k'
    · subst he
      by_cases hk : k = e <;> simp [pushSample, hk]
    · simp only [pushSample, beq_false_of_ne he, Bool.false_eq_true, if_false,
        List.map_cons, List.mem_cons, ih]
      tauto

theorem confsOf_cons (k : Str) (d : EmotionScore) (ds : List EmotionScore) :
    confsOf k (d :: ds) =
      if d.emotion = k then d.confidence :: confsOf k ds else confsOf k ds := by
  by_cases h : d.emotion = k
  · simp [confsOf, List.filterMap_cons, h]
  · simp [confsOf, List.filterMap_cons, beq_false_of_ne h, h]

theorem lookup_foldl_pushSample (ds : List EmotionScore)
    (g : List (Str × List ℚ)) (k : Str) :
    (ds.foldl (fun g d => pushSample g d.emotion d.confidence) g).lookup k =
      match g.lookup k with
      | some l => some (l ++ confsOf k ds)
      | none => if (confsOf k ds).isEmpty then none else some (confsOf k ds) := by
  induction ds generalizing g with
  | nil => cases h : g.lookup k <;> simp [confsOf, h]
  | cons d ds ih =>
    simp only [List.foldl_cons]
    rw [ih, lookup_pushSample, confsOf_cons]
    by_cases hk : d.emotion = k
    · subst hk
      cases h : g.lookup d.emotion <;> simp [h]
    · have hk2 : ¬(k = d.emotion) := fun hh => hk hh.symm
      cases h : g.lookup k <;> simp [h, hk, hk2]

theorem mem_keys_foldl_pushSample {k : Str} (ds : List EmotionScore)
    {g : List (Str × List ℚ)}
    (h : k ∈ (ds.foldl (fun g d => pushSample g d.emotion d.confidence) g).map Prod.fst) :
    k ∈ g.map Prod.fst ∨ ∃ d ∈ ds, d.emotion = k := by
  induction ds generalizing g with
  | nil => exact Or.inl (by simpa using h)
  | cons d ds ih =>
    simp only [List.foldl_cons] at h
    rcases ih h with h1 | h1
    · rcases (mem_keys_pushSample g _ _).mp h1 with h2 | h2
      · exact Or.inr ⟨d, by simp, h2.symm⟩
      · exact Or.inl h2
    · obtain ⟨d', hd', he⟩ := h1
      exact Or.inr ⟨d', by simp [hd'], he⟩

theorem lookup_map_avg (g : List (Str × List ℚ)) (k : Str) :
    (g.map (fun p => (p.1, p.2.foldl (fun a b => a + b) 0 / (p.2.length : ℚ)))).lookup k =
      (g.lookup k).map (fun cs => cs.foldl (fun a b => a + b) 0 / (cs.length : ℚ)) := by
  induction g with
  | nil => simp
  | cons p rest ih =>
    obtain ⟨k', cs⟩ := p
    by_cases h : k = k'
    · subst h; simp [List.lookup_cons]
    · simp [List.lookup_cons, beq_false_of_ne h, ih]

theorem foldl_pick_eq_firstMax (t : List (Str × ℚ)) (prev : Str × ℚ) :
    t.foldl (fun prev cur => if prev.2 < cur.2 then cur else prev) prev =
      match firstMax t with
      | none => prev
      | some q => if prev.2 < q.2 then q else prev := by
  induction t generalizing prev with
  | nil => rfl
  | cons c t ih =>
    simp only [List.foldl_cons, firstMax]
    rw [ih]
    cases h : firstMax t with
    | none => simp
    | some q =>
      by_cases h1 : prev.2 < c.2 <;> by_cases h2 : c.2 < q.2 <;>
        by_cases h3 : prev.2 < q.2 <;> simp [h1, h2, h3] <;> linarith

theorem firstMax_mem {l : List (Str × ℚ)} {q : Str × ℚ}
    (h : firstMax l = some q) : q ∈ l := by
  induction l with
  | nil => simp [firstMax] at h
  | cons p t ih =>
    simp only [firstMax] at h
    cases hm : firstMax t with
    | none => rw [hm] at h; simp at h; simp [h]
    | some r =>
      rw [hm] at h
      by_cases hlt : p.2 < r.2
      · simp only [hlt, if_pos] at h
        exact List.mem_cons_of_mem _ (ih (hm.trans (congrArg some (Option.some_inj.mp h))))
      · simp only [hlt, if_neg, not_false_iff] at h
        simp at h
        simp [h]

theorem firstMax_is_max {l : List (Str × ℚ)} {q : Str × ℚ}
    (h : firstMax l = some q) : ∀ p ∈ l, p.2 ≤ q.2 := by
  induction l generalizing q with
  | nil => simp
  | cons p t ih =>
    intro r hr
    cases hm : firstMax t with
    | none =>
      simp only [firstMax, hm, Option.some_inj] at h
      subst h
      rcases List.mem_cons.mp hr with hre | hrt
      · subst hre; exact le_refl _
      · cases t with
        | nil => cases hrt
        | cons a b =>
          exfalso
          have hsome : (firstMax (a :: b)).isSome = true := by
            simp only [firstMax]
            cases firstMax b with
            | none => simp
            | some w => by_cases hw : a.2 < w.2 <;> simp [hw]
          rw [hm] at hsome
          simp at hsome
    | some m =>
      simp only [firstMax, hm] at h
      rcases List.mem_cons.mp hr with hre | hrt
      · subst hre
        by_cases hlt : r.2 < m.2
        · rw [if_pos hlt] at h
          simp only [Option.some_inj] at h
          subst h
          exact le_of_lt hlt
        · rw [if_neg hlt] at h
          simp only [Option.some_inj] at h
          subst h
          exact le_refl _
      · have hrm := ih hm r hrt
        by_cases hlt : p.2 < m.2
        · rw [if_pos hlt] at h
          simp only [Option.some_inj] at h
          subst h
          exact hrm
        · rw [if_neg hlt] at h
          simp only [Option.some_inj] at h
          subst h
          exact le_trans hrm (not_lt.mp hlt)

theorem foldl_pick_mem (t : List (Str × ℚ)) (prev : Str × ℚ) :
    t.foldl (fun prev cur => if prev.2 < cur.2 then cur else prev) prev ∈ prev :: t := by
  rw [foldl_pick_eq_firstMax]
  cases h : firstMax t with
  | none => simp
  | some q =>
    by_cases hlt : prev.2 < q.2
    · simp only [hlt, if_pos]
      exact List.mem_cons_of_mem _ (firstMax_mem h)
    · simp [hlt]

theorem detect_spec (frames : List (Option EmotionScore))
    (h : (frames.filterMap id).isEmpty = false) :
    ∃ res, detectFacialExpressionMultiFrame frames = some res ∧
      firstMax res.allEmotions = some (res.emotion, res.confidence) ∧
      (∀ k, res.allEmotions.lookup k =
        if (confsOf k (frames.filterMap id)).isEmpty then none
        else some ((confsOf k (frames.filterMap id)).foldl (fun a b => a + b) 0 /
          ((confsOf k (frames.filterMap id)).length : ℚ))) ∧
      (∃ d ∈ frames.filterMap id, res.emotion = d.emotion) := by
  cases hd : frames.filterMap id with
  | nil => rw [hd] at h; simp at h
  | cons d ds =>
    have hgne : (d :: ds).foldl (fun g d => pushSample g d.emotion d.confidence) [] ≠ [] := by
      simp only [List.foldl_cons]
      exact foldl_pushSample_ne_nil ds (pushSample_ne_nil _ _ _)
    simp only [detectFacialExpressionMultiFrame, hd]
    cases havg : ((d :: ds).foldl (fun g d => pushSample g d.emotion d.confidence) []).map
        (fun p => (p.1, p.2.foldl (fun a b => a + b) 0 / (p.2.length : ℚ))) with
    | nil => exact absurd (List.map_eq_nil_iff.mp havg) hgne
    | cons hA tA =>
      refine ⟨_, rfl, ?_, ?_, ?_⟩
      · have hfm : firstMax (hA :: tA) =
            some (tA.foldl (fun prev cur => if prev.2 < cur.2 then cur else prev) hA) := by
          rw [foldl_pick_eq_firstMax]
          simp only [firstMax]
          cases firstMax tA with
          | none => rfl
          | some q => by_cases hq : hA.2 < q.2 <;> simp [hq]
        simpa using hfm
      · intro k
        have hl : (hA :: tA).lookup k =
            (((d :: ds).foldl (fun g d => pushSample g d.emotion d.confidence) []).map
              (fun p => (p.1, p.2.foldl (fun a b => a + b) 0 / (p.2.length : ℚ)))).lookup k := by
          rw [havg]
        rw [hl, lookup_map_avg, lookup_foldl_pushSample]
        simp [apply_ite]
      · have hmem := foldl_pick_mem tA hA
        rw [← havg] at hmem
        obtain ⟨p, hp, hpe⟩ := List.mem_map.mp hmem
        have hk : p.1 ∈ ((d :: ds).foldl
            (fun g d => pushSample g d.emotion d.confidence) []).map Prod.fst :=
          List.mem_map_of_mem Prod.fst hp
        rcases mem_keys_foldl_pushSample (d :: ds) hk with h1 | h1
        · simp at h1
        · obtain ⟨d', hd', he⟩ := h1
          exact ⟨d', hd', by rw [← hpe]; exact he.symm⟩

theorem ite_mem_or_eq {c : Prop} [Decidable c] {a b fb : Str}
    (ha : a ∈ STANDARD_EMOTIONS) (hb : b ∈ STANDARD_EMOTIONS ∨ b = fb) :
    (if c then a else b) ∈ STANDARD_EMOTIONS ∨ (if c then a else b) = fb := by
  by_cases h : c
  · rw [if_pos h]; exact Or.inl ha
  · rw [if_neg h]; exact hb

theorem normalizeEmotion_mem_or_fallback (s : Str) :
    normalizeEmotion s ∈ STANDARD_EMOTIONS ∨
      normalizeEmotion s = capitalizeFirst (trimStr s) := by
  cases hf : STANDARD_EMOTIONS.find? (fun std => strLower std == strLower (trimStr s)) with
  | some m =>
    left
    have hm := List.mem_of_find?_eq_some hf
    simp only [normalizeEmotion, hf]
    exact hm
  | none =>
    simp only [normalizeEmotion, hf]
    exact ite_mem_or_eq (by decide) (ite_mem_or_eq (by decide) (ite_mem_or_eq (by decide)
      (ite_mem_or_eq (by decide) (ite_mem_or_eq (by decide) (ite_mem_or_eq (by decide)
      (ite_mem_or_eq (by decide) (ite_mem_or_eq (by decide) (ite_mem_or_eq (by decide)
      (ite_mem_or_eq (by decide) (ite_mem_or_eq (by decide) (Or.inr rfl)))))))))))

theorem weighted_finalEmotion_cases (input : MultiModalEmotionInput) :
    (weightedVotingFusion input).finalEmotion = "Neutral".data ∨
      ∃ s, (weightedVotingFusion input).finalEmotion = normalizeEmotion s := by
  cases hs : sortVotes (weightedVotes input) with
  | nil => left; simp [weightedVotingFusion, hs]
  | cons p rest =>
    right
    have hp : p ∈ weightedVotes input := head_mem_of_sortVotes hs
    have hk : p.1 ∈ (weightedVotes input).map Prod.fst := List.mem_map_of_mem Prod.fst hp
    simp only [weightedVotes] at hk
    obtain ⟨s, hsg⟩ := votesChain_keys_normalize _ _ _ input hk
    obtain ⟨e, sc⟩ := p
    exact ⟨s, by simpa [weightedVotingFusion, hs] using hsg⟩

theorem majority_finalEmotion_cases (input : MultiModalEmotionInput) :
    (majorityVotingFusion input).finalEmotion = "Neutral".data ∨
      ∃ s, (majorityVotingFusion input).finalEmotion = normalizeEmotion s := by
  cases hs : sortVotes (majorityVotes input) with
  | nil => left; simp [majorityVotingFusion, hs]
  | cons p rest =>
    right
    have hp : p ∈ majorityVotes input := head_mem_of_sortVotes hs
    have hk : p.1 ∈ (majorityVotes input).map Prod.fst := List.mem_map_of_mem Prod.fst hp
    simp only [majorityVotes] at hk
    obtain ⟨s, hsg⟩ := votesChain_keys_normalize _ _ _ input hk
    obtain ⟨e, sc⟩ := p
    exact ⟨s, by simpa [majorityVotingFusion, hs] using hsg⟩

theorem applyFacial_absent {input : MultiModalEmotionInput}
    (h : presentFacial input = false) (w : EmotionScore → ℚ)
    (votes : List (Str × ℚ)) : applyFacial w input votes = votes := by
  cases hf : input.facialEmotion with
  | none => simp [applyFacial, hf]
  | some fe => simp [presentFacial, hf] at h

theorem applyVoice_absent {input : MultiModalEmotionInput}
    (h : presentVoice input = false) (w : ℚ)
    (votes : List (Str × ℚ)) : applyVoice w input votes = votes := by
  cases hv : input.voiceEmotion with
  | none => simp [applyVoice, hv]
  | some v =>
    simp only [presentVoice, hv, Bool.not_eq_false'] at h
    simp [applyVoice, hv, h]

theorem applyText_absent {input : MultiModalEmotionInput}
    (h : presentText input = false) (w : ℚ)
    (votes : List (Str × ℚ)) : applyText w input votes = votes := by
  cases ht : input.textEmotion with
  | none => simp [applyText, ht]
  | some t =>
    simp only [presentText, ht, Bool.not_eq_false'] at h
    simp [applyText, ht, h]

theorem fusionBreakdown_facial_only {input : MultiModalEmotionInput}
    {fe : EmotionScore} (hf : input.facialEmotion = some fe)
    (hv : presentVoice input = false) (ht : presentText input = false) :
    fusionBreakdown input = ⟨some (normalizeEmotion fe.emotion), none, none⟩ := by
  rcases input with ⟨f, vo, te⟩
  obtain rfl : f = some fe := hf
  cases vo with
  | none =>
    cases te with
    | none => rfl
    | some t =>
      simp only [presentText, Bool.not_eq_false'] at ht
      simp [fusionBreakdown, ht]
  | some v =>
    simp only [presentVoice, Bool.not_eq_false'] at hv
    cases te with
    | none => simp [fusionBreakdown, hv]
    | some t =>
      simp only [presentText, Bool.not_eq_false'] at ht
      simp [fusionBreakdown, hv, ht]

theorem fusionBreakdown_voice_only {input : MultiModalEmotionInput} {v : Str}
    (hv : input.voiceEmotion = some v) (hve : v.isEmpty = false)
    (hf : presentFacial input = false) (ht : presentText input = false) :
    fusionBreakdown input = ⟨none, some (channelLabel v), none⟩ := by
  rcases input with ⟨f, vo, te⟩
  obtain rfl : vo = some v := hv
  cases f with
  | some fe => simp [presentFacial] at hf
  | none =>
    cases te with
    | none => simp [fusionBreakdown, hve]
    | some t =>
      simp only [presentText, Bool.not_eq_false'] at ht
      simp [fusionBreakdown, hve, ht]

theorem fusionBreakdown_text_only {input : MultiModalEmotionInput} {t : Str}
    (ht : input.textEmotion = some t) (hte : t.isEmpty = false)
    (hf : presentFacial input = false) (hv : presentVoice input = false) :
    fusionBreakdown input = ⟨none, none, some (channelLabel t)⟩ := by
  rcases input with ⟨f, vo, te⟩
  obtain rfl : te = some t := ht
  cases f with
  | some fe => simp [presentFacial] at hf
  | none =>
    cases vo with
    | none => simp [fusionBreakdown, hte]
    | some v =>
      simp only [presentVoice, Bool.not_eq_false'] at hv
      simp [fusionBreakdown, hte, hv]

/-!  The claims. -/

/-- C7: for the input in which all three channels are absent, `fuseEmotions`
under either strategy returns finalEmotion "Neutral", confidence 0.5, an
empty breakdown (no facial, voice, or text key present), and the
corresponding fusionMethod string; a defined fallback, not an error. -/
theorem claim_C7_all_absent_fallback :
    fuseEmotions ⟨none, none, none⟩ .weighted =
      ⟨"Neutral".data, 0.5, Breakdown.empty, "weighted-voting".data⟩ ∧
    fuseEmotions ⟨none, none, none⟩ .majority =
      ⟨"Neutral".data, 0.5, Breakdown.empty, "majority-voting".data⟩ := by
  constructor <;> rfl

/-- C8: whenever every classifier invocation of a multi-frame run yields no
detection (zero samples collected), the aggregator returns `none`, not a
Neutral or zero-confidence result. -/
theorem claim_C8_all_misses_absent :
    ∀ frames : List (Option EmotionScore), (∀ f ∈ frames, f = none) →
      detectFacialExpressionMultiFrame frames = none := by
  intro frames h
  have hnil : frames.filterMap id = [] := by
    rw [List.filterMap_eq_nil_iff]
    intro a ha
    simpa using h a ha
  simp [detectFacialExpressionMultiFrame, hnil]

/-- C8 witness: a run of two missed frames aggregates to `none`. -/
theorem claim_C8_witness :
    (∀ f ∈ ([none, none] : List (Option EmotionScore)), f = none) ∧
      detectFacialExpressionMultiFrame [none, none] = none :=
  ⟨by decide, claim_C8_all_misses_absent [none, none] (by decide)⟩

/-- C10: `mapFaceApiEmotion` maps exactly the seven lowercase face-api.js
labels to their canonical taxonomy members and returns every other input
string unchanged — no capitalization, keyword matching or Neutral fallback. -/
theorem claim_C10_faceapi_map :
    mapFaceApiEmotion "neutral".data = "Neutral".data ∧
    mapFaceApiEmotion "happy".data = "Happy".data ∧
    mapFaceApiEmotion "sad".data = "Sad".data ∧
    mapFaceApiEmotion "angry".data = "Angry".data ∧
    mapFaceApiEmotion "fearful".data = "Fearful".data ∧
    mapFaceApiEmotion "disgusted".data = "Disgusted".data ∧
    mapFaceApiEmotion "surprised".data = "Surprised".data ∧
    (∀ s : Str, s ∉ faceApiEmotionMap.map Prod.fst → mapFaceApiEmotion s = s) := by
  refine ⟨rfl, rfl, rfl, rfl, rfl, rfl, rfl, ?_⟩
  intro s hs
  simp only [faceApiEmotionMap, List.map_cons, List.map_nil, List.mem_cons,
    List.not_mem_nil, or_false, not_or] at hs
  obtain ⟨h1, h2, h3, h4, h5, h6, h7⟩ := hs
  simp [mapFaceApiEmotion, faceApiEmotionMap, List.lookup_cons,
    beq_false_of_ne h1, beq_false_of_ne h2, beq_false_of_ne h3, beq_false_of_ne h4,
    beq_false_of_ne h5, beq_false_of_ne h6, beq_false_of_ne h7]

/-- C10 witness: an unmapped label ("bored") passes through unchanged. -/
theorem claim_C10_witness :
    "bored".data ∉ faceApiEmotionMap.map Prod.fst ∧
      mapFaceApiEmotion "bored".data = "bored".data :=
  ⟨by decide, claim_C10_faceapi_map.2.2.2.2.2.2.2 "bored".data (by decide)⟩

/-- C1 counterexample: the claimed taxonomy-membership invariant fails on the
code.  A voice string with no keyword match is capitalize-passed-through, so
the fused finalEmotion "Blah" is neither a taxonomy member nor "Neutral";
and the aggregator's dominant emotion is the raw (lowercase) face-api label
"happy", which is not a member of the canonically-cased taxonomy. -/
theorem claim_C1_counterexample :
    (fuseEmotions ⟨none, some "blah".data, none⟩ .weighted).finalEmotion = "Blah".data ∧
    "Blah".data ∉ STANDARD_EMOTIONS ∧
    "Blah".data ≠ "Neutral".data ∧
    ((detectFacialExpressionMultiFrame [some ⟨"happy".data, 0.9⟩]).map
      (fun r => r.emotion)) = some "happy".data ∧
    "happy".data ∉ STANDARD_EMOTIONS := by
  exact ⟨by decide, by decide, by decide, rfl, by decide⟩

/-- C1 (amended): every fused finalEmotion is either the literal "Neutral"
fallback or the normalizer's output on some channel string; the normalizer's
output is a taxonomy member whenever exact or keyword matching succeeds and
otherwise is the capitalized trimmed input (not necessarily a member); and
the aggregator's dominant emotion is the raw label of one of the collected
samples (not necessarily a member). -/
theorem claim_C1_amended_label_provenance :
    (∀ (input : MultiModalEmotionInput) (strategy : Strategy),
      (fuseEmotions input strategy).finalEmotion = "Neutral".data ∨
        ∃ s, (fuseEmotions input strategy).finalEmotion = normalizeEmotion s) ∧
    (∀ s : Str, normalizeEmotion s ∈ STANDARD_EMOTIONS ∨
        normalizeEmotion s = capitalizeFirst (trimStr s)) ∧
    (∀ frames : List (Option EmotionScore),
      (detectFacialExpressionMultiFrame frames).elim True
        (fun res => ∃ d ∈ frames.filterMap id, res.emotion = d.emotion)) := by
  refine ⟨?_, normalizeEmotion_mem_or_fallback, ?_⟩
  · intro input strategy
    cases strategy with
    | weighted => exact weighted_finalEmotion_cases input
    | majority => exact majority_finalEmotion_cases input
  · intro frames
    cases hemp : (frames.filterMap id).isEmpty with
    | true =>
      have hnone : detectFacialExpressionMultiFrame frames = none := by
        simp only [detectFacialExpressionMultiFrame, List.isEmpty_iff.mp hemp]
      simp [hnone]
    | false =>
      obtain ⟨res, hres, _, _, hex⟩ := detect_spec frames hemp
      rw [hres]
      simpa using hex

/-- C3: any input whose trimmed value matches no taxonomy member exactly but
contains "calm" and none of the higher-priority keywords normalizes to
"Neutral", while an input whose trimmed value is exactly "calm"
case-insensitively normalizes to the canonical "Calm". -/
theorem claim_C3_calm_keyword_neutral :
    (∀ s : Str,
      STANDARD_EMOTIONS.find? (fun std => strLower std == strLower (trimStr s)) = none →
      containsSub (strLower (trimStr s)) "calm".data = true →
      containsSub (strLower (trimStr s)) "happ".data = false →
      containsSub (strLower (trimStr s)) "joy".data = false →
      containsSub (strLower (trimStr s)) "sad".data = false →
      containsSub (strLower (trimStr s)) "depress".data = false →
      containsSub (strLower (trimStr s)) "ang".data = false →
      containsSub (strLower (trimStr s)) "mad".data = false →
      containsSub (strLower (trimStr s)) "fear".data = false →
      containsSub (strLower (trimStr s)) "scared".data = false →
      containsSub (strLower (trimStr s)) "surpris".data = false →
      containsSub (strLower (trimStr s)) "shock".data = false →
      containsSub (strLower (trimStr s)) "disgust".data = false →
      normalizeEmotion s = "Neutral".data) ∧
    (∀ s : Str, strLower (trimStr s) = "calm".data →
      normalizeEmotion s = "Calm".data) := by
  constructor
  · intro s hf hcalm h1 h2 h3 h4 h5 h6 h7 h8 h9 h10 h11
    simp [normalizeEmotion, hf, hcalm, h1, h2, h3, h4, h5, h6, h7, h8, h9, h10, h11]
  · intro s h
    have hf : STANDARD_EMOTIONS.find?
        (fun std => strLower std == strLower (trimStr s)) = some "Calm".data := by
      have hfun : (fun std => strLower std == strLower (trimStr s)) =
          (fun std => strLower std == "calm".data) := by
        funext std
        rw [h]
      rw [hfun]
      decide
    simp [normalizeEmotion, hf]

/-- C2: under the weighted strategy a present facial channel contributes
0.5 when its confidence is strictly greater than 0.6 and 0.3 otherwise
(confidence exactly 0.6 contributes 0.3), a present voice channel 0.3, a
present text channel 0.2 — as captured by the spec-side `totalWeight` — and
with at least one channel present the result's confidence equals the winning
label's accumulated weight clamped to a maximum of 1.0. -/
theorem claim_C2_weighted_weights :
    (∀ input : MultiModalEmotionInput,
      (presentFacial input || presentVoice input || presentText input) = true →
      (fuseEmotions input .weighted).confidence =
        min (totalWeight input (fuseEmotions input .weighted).finalEmotion) 1) ∧
    (∀ fe : EmotionScore, fe.confidence = 0.6 →
      (fuseEmotions ⟨some fe, none, none⟩ .weighted).confidence = 0.3) := by
  constructor
  · intro input h
    obtain ⟨p, hp, heq⟩ := weighted_head input (weightedVotes_ne_nil input h)
    show (weightedVotingFusion input).confidence =
      min (totalWeight input (weightedVotingFusion input).finalEmotion) 1
    rw [heq]
    show min p.2 1 = min (totalWeight input p.1) 1
    rw [mem_weightedVotes_val hp]
  · intro fe hconf
    show (weightedVotingFusion ⟨some fe, none, none⟩).confidence = 0.3
    have hv : weightedVotes ⟨some fe, none, none⟩ =
        [(normalizeEmotion fe.emotion, 0.3)] := by
      simp only [weightedVotes, applyText, applyVoice, applyFacial, addVote, hconf]
      norm_num
    simp only [weightedVotingFusion, hv, sortVotes, List.insertionSort, List.orderedInsert]
    rw [hconf]
    norm_num

/-- C2 witness: a voice-only input instantiates the confidence equation, and
a facial confidence of exactly 0.6 yields confidence 0.3. -/
theorem claim_C2_witness :
    (presentFacial ⟨none, some "Excited".data, none⟩ ||
      presentVoice ⟨none, some "Excited".data, none⟩ ||
      presentText ⟨none, some "Excited".data, none⟩) = true ∧
    (fuseEmotions ⟨none, some "Excited".data, none⟩ .weighted).confidence =
      min (totalWeight ⟨none, some "Excited".data, none⟩
        (fuseEmotions ⟨none, some "Excited".data, none⟩ .weighted).finalEmotion) 1 ∧
    ((⟨"Happy".data, 0.6⟩ : EmotionScore).confidence = 0.6 ∧
      (fuseEmotions ⟨some ⟨"Happy".data, 0.6⟩, none, none⟩ .weighted).confidence = 0.3) :=
  ⟨by decide, claim_C2_weighted_weights.1 _ (by decide),
    ⟨rfl, claim_C2_weighted_weights.2 ⟨"Happy".data, 0.6⟩ rfl⟩⟩

/-- C9: with exactly one channel present (the other two JavaScript-falsy),
both strategies return that channel's normalized label as finalEmotion and a
breakdown containing exactly that channel's key; under the majority strategy
the confidence is exactly 1 (one vote for the winner out of one vote). -/
theorem claim_C9_single_channel :
    (∀ (input : MultiModalEmotionInput) (fe : EmotionScore),
      input.facialEmotion = some fe → presentVoice input = false →
      presentText input = false →
      (fuseEmotions input .weighted).finalEmotion = normalizeEmotion fe.emotion ∧
      (fuseEmotions input .weighted).breakdown =
        ⟨some (normalizeEmotion fe.emotion), none, none⟩ ∧
      (fuseEmotions input .majority).finalEmotion = normalizeEmotion fe.emotion ∧
      (fuseEmotions input .majority).breakdown =
        ⟨some (normalizeEmotion fe.emotion), none, none⟩ ∧
      (fuseEmotions input .majority).confidence = 1) ∧
    (∀ (input : MultiModalEmotionInput) (v : Str),
      input.voiceEmotion = some v → v.isEmpty = false →
      presentFacial input = false → presentText input = false →
      (fuseEmotions input .weighted).finalEmotion = channelLabel v ∧
      (fuseEmotions input .weighted).breakdown = ⟨none, some (channelLabel v), none⟩ ∧
      (fuseEmotions input .majority).finalEmotion = channelLabel v ∧
      (fuseEmotions input .majority).breakdown = ⟨none, some (channelLabel v), none⟩ ∧
      (fuseEmotions input .majority).confidence = 1) ∧
    (∀ (input : MultiModalEmotionInput) (t : Str),
      input.textEmotion = some t → t.isEmpty = false →
      presentFacial input = false → presentVoice input = false →
      (fuseEmotions input .weighted).finalEmotion = channelLabel t ∧
      (fuseEmotions input .weighted).breakdown = ⟨none, none, some (channelLabel t)⟩ ∧
      (fuseEmotions input .majority).finalEmotion = channelLabel t ∧
      (fuseEmotions input .majority).breakdown = ⟨none, none, some (channelLabel t)⟩ ∧
      (fuseEmotions input .majority).confidence = 1) := by
  refine ⟨?_, ?_, ?_⟩
  · intro input fe hf hv ht
    have hwv : weightedVotes input =
        [(normalizeEmotion fe.emotion, if fe.confidence > 0.6 then 0.5 else 0.3)] := by
      simp only [weightedVotes, applyText_absent ht, applyVoice_absent hv,
        applyFacial, hf, addVote]
    have hmv : majorityVotes input = [(normalizeEmotion fe.emotion, 1)] := by
      simp only [majorityVotes, applyText_absent ht, applyVoice_absent hv,
        applyFacial, hf, addVote]
    have hbd := fusionBreakdown_facial_only hf hv ht
    refine ⟨?_, ?_, ?_, ?_, ?_⟩ <;>
      simp only [fuseEmotions, weightedVotingFusion, majorityVotingFusion, hwv, hmv,
        sortVotes, List.insertionSort, List.orderedInsert, hbd, List.foldl_cons,
        List.foldl_nil] <;> norm_num
  · intro input v hv hve hf ht
    have hwv : weightedVotes input = [(channelLabel v, 0.3)] := by
      simp only [weightedVotes, applyText_absent ht, applyVoice, hv, hve,
        applyFacial_absent hf, Bool.false_eq_true, if_false, addVote]
    have hmv : majorityVotes input = [(channelLabel v, 1)] := by
      simp only [majorityVotes, applyText_absent ht, applyVoice, hv, hve,
        applyFacial_absent hf, Bool.false_eq_true, if_false, addVote]
    have hbd := fusionBreakdown_voice_only hv hve hf ht
    refine ⟨?_, ?_, ?_, ?_, ?_⟩ <;>
      simp only [fuseEmotions, weightedVotingFusion, majorityVotingFusion, hwv, hmv,
        sortVotes, List.insertionSort, List.orderedInsert, hbd, List.foldl_cons,
        List.foldl_nil] <;> norm_num
  · intro input t hts hte hf hv
    have hwv : weightedVotes input = [(channelLabel t, 0.2)] := by
      simp only [weightedVotes, applyText, hts, hte, applyVoice_absent hv,
        applyFacial_absent hf, Bool.false_eq_true, if_false, addVote]
    have hmv : majorityVotes input = [(channelLabel t, 1)] := by
      simp only [majorityVotes, applyText, hts, hte, applyVoice_absent hv,
        applyFacial_absent hf, Bool.false_eq_true, if_false, addVote]
    have hbd := fusionBreakdown_text_only hts hte hf hv
    refine ⟨?_, ?_, ?_, ?_, ?_⟩ <;>
      simp only [fuseEmotions, weightedVotingFusion, majorityVotingFusion, hwv, hmv,
        sortVotes, List.insertionSort, List.orderedInsert, hbd, List.foldl_cons,
        List.foldl_nil] <;> norm_num

/-- C9 witness: a voice-only input with voice string "Excited" fuses to
"Excited" with only the voice breakdown key under both strategies, with
majority confidence 1. -/
theorem claim_C9_witness :
    ((⟨none, some "Excited".data, none⟩ : MultiModalEmotionInput).voiceEmotion =
      some "Excited".data ∧
     ("Excited".data : Str).isEmpty = false) ∧
    (fuseEmotions ⟨none, some "Excited".data, none⟩ .majority).finalEmotion =
      channelLabel "Excited".data ∧
    (fuseEmotions ⟨none, some "Excited".data, none⟩ .majority).confidence = 1 :=
  ⟨⟨rfl, by decide⟩,
    (claim_C9_single_channel.2.1 ⟨none, some "Excited".data, none⟩ "Excited".data
      rfl (by decide) (by decide) (by decide)).2.2.1,
    (claim_C9_single_channel.2.1 ⟨none, some "Excited".data, none⟩ "Excited".data
      rfl (by decide) (by decide) (by decide)).2.2.2.2⟩

/-- C6: under the weighted strategy, when two distinct normalized labels end
with equal accumulated weight, the label inserted first wins — facial before
voice before text: a facial channel at weight 0.3 beats a voice channel at
weight 0.3 on a different label, and a high-confidence facial channel at
weight 0.5 beats a voice and text pair agreeing on a different label at
weight 0.3 + 0.2 = 0.5, because the channels are accumulated in that fixed
order and the descending sort is stable. -/
theorem claim_C6_tie_first_inserted :
    (∀ eF vRaw : Str, vRaw.isEmpty = false →
      normalizeEmotion eF ≠ channelLabel vRaw →
      fuseEmotions ⟨some ⟨eF, 0.5⟩, some vRaw, none⟩ .weighted =
        ⟨normalizeEmotion eF, 0.3,
         ⟨some (normalizeEmotion eF), some (channelLabel vRaw), none⟩,
         "weighted-voting".data⟩) ∧
    (∀ eF vRaw tRaw : Str, vRaw.isEmpty = false → tRaw.isEmpty = false →
      channelLabel vRaw = channelLabel tRaw →
      normalizeEmotion eF ≠ channelLabel vRaw →
      (fuseEmotions ⟨some ⟨eF, 0.9⟩, some vRaw, some tRaw⟩ .weighted).finalEmotion =
        normalizeEmotion eF) := by
  constructor
  · intro eF vRaw hvemp hne
    have hBA : (channelLabel vRaw == normalizeEmotion eF) = false :=
      beq_false_of_ne (Ne.symm hne)
    have hv : weightedVotes ⟨some ⟨eF, 0.5⟩, some vRaw, none⟩ =
        [(normalizeEmotion eF, 0.3), (channelLabel vRaw, 0.3)] := by
      simp only [weightedVotes, applyText, applyVoice, applyFacial, addVote,
        hvemp, hBA, Bool.false_eq_true, if_false]
      norm_num
    show weightedVotingFusion _ = _
    simp only [weightedVotingFusion, hv, sortVotes, List.insertionSort,
      List.orderedInsert, fusionBreakdown, hvemp, Bool.false_eq_true, if_false]
    norm_num
  · intro eF vRaw tRaw hvemp htemp ht hne
    have hBA : (channelLabel vRaw == normalizeEmotion eF) = false :=
      beq_false_of_ne (Ne.symm hne)
    have hTA : (channelLabel tRaw == normalizeEmotion eF) = false := by
      rw [← ht]; exact hBA
    have hTB : (channelLabel tRaw == channelLabel vRaw) = true :=
      beq_iff_eq.mpr ht.symm
    have hv : weightedVotes ⟨some ⟨eF, 0.9⟩, some vRaw, some tRaw⟩ =
        [(normalizeEmotion eF, 0.5), (channelLabel vRaw, 0.3 + 0.2)] := by
      simp only [weightedVotes, applyText, applyVoice, applyFacial, addVote,
        hvemp, htemp, hBA, hTA, hTB, Bool.false_eq_true, if_false, if_true]
      norm_num
    show (weightedVotingFusion _).finalEmotion = _
    simp only [weightedVotingFusion, hv, sortVotes, List.insertionSort,
      List.orderedInsert]
    norm_num

/-- C5: for every input string the extractor agrees with the spec-side
table-driven extractor `extractSpec`: the first taxonomy member in canonical
order whose name occurs case-insensitively in the text, else the first
matching rule of the fixed keyword table, else `none` — absent rather than
an error or a default label. -/
theorem claim_C5_extractor_refinement :
    ∀ text : Str, extractEmotionFromText text = extractSpec text := by
  intro text
  by_cases hemp : text.isEmpty
  · simp [extractEmotionFromText, extractSpec, hemp]
  · rw [Bool.not_eq_true] at hemp
    simp only [extractEmotionFromText, extractSpec, hemp, Bool.false_eq_true, if_false]
    cases hf : STANDARD_EMOTIONS.find?
        (fun e => containsSub (strLower text) (strLower e)) with
    | some e => rfl
    | none =>
      simp only [extractKeywordRules, firstRule, List.any_cons, List.any_nil,
        Bool.or_false]

/-- C5 has no hypothesis; this example exercises both stages at concrete
inputs: a taxonomy mention, a keyword-table hit, and a miss. -/
theorem claim_C5_examples :
    extractEmotionFromText "I feel neutral today".data = extractSpec "I feel neutral today".data ∧
    extractEmotionFromText "just upset".data = some "Angry".data ∧
    extractEmotionFromText "blah".data = none :=
  ⟨claim_C5_extractor_refinement _, by decide, by decide⟩

/-- C6 witness: facial "Happy" at weight 0.3 ties with voice "Sad" at
weight 0.3 and facial wins; facial "Happy" at weight 0.5 ties with an
agreeing voice and text "Sad" pair at weight 0.5 and facial wins. -/
theorem claim_C6_witness :
    (("Sad".data : Str).isEmpty = false ∧
      normalizeEmotion "Happy".data ≠ channelLabel "Sad".data ∧
      fuseEmotions ⟨some ⟨"Happy".data, 0.5⟩, some "Sad".data, none⟩ .weighted =
        ⟨normalizeEmotion "Happy".data, 0.3,
         ⟨some (normalizeEmotion "Happy".data), some (channelLabel "Sad".data), none⟩,
         "weighted-voting".data⟩) ∧
    (channelLabel "Sad".data = channelLabel "Sad".data ∧
      (fuseEmotions ⟨some ⟨"Happy".data, 0.9⟩, some "Sad".data,
        some "Sad".data⟩ .weighted).finalEmotion = normalizeEmotion "Happy".data) :=
  ⟨⟨by decide, by decide,
      claim_C6_tie_first_inserted.1 "Happy".data "Sad".data (by decide) (by decide)⟩,
    ⟨rfl, claim_C6_tie_first_inserted.2 "Happy".data "Sad".data "Sad".data
      (by decide) (by decide) rfl (by decide)⟩⟩

/-- C4: for every non-empty collection of samples the aggregator's
allEmotions maps each raw label to the arithmetic mean of that label's
sample confidences, and the dominant pair is the first-encountered entry of
maximal average (`firstMax`); in particular 3 samples of Happy at 0.8 and 2
of Sad at 0.6 yield dominant "Happy" at 0.8 with allEmotions Happy at 0.8
and Sad at 0.6, and on an exact tie the first-encountered label wins. -/
theorem claim_C4_aggregator_grouping :
    (∀ frames : List (Option EmotionScore),
      (frames.filterMap id).isEmpty = false →
      ∃ res, detectFacialExpressionMultiFrame frames = some res ∧
        firstMax res.allEmotions = some (res.emotion, res.confidence) ∧
        (∀ p ∈ res.allEmotions, p.2 ≤ res.confidence) ∧
        (∀ k, res.allEmotions.lookup k =
          if (confsOf k (frames.filterMap id)).isEmpty then none
          else some ((confsOf k (frames.filterMap id)).foldl (fun a b => a + b) 0 /
            ((confsOf k (frames.filterMap id)).length : ℚ)))) ∧
    detectFacialExpressionMultiFrame
        [some ⟨"Happy".data, 0.8⟩, some ⟨"Happy".data, 0.8⟩, some ⟨"Happy".data, 0.8⟩,
         some ⟨"Sad".data, 0.6⟩, some ⟨"Sad".data, 0.6⟩] =
      some ⟨"Happy".data, 0.8, [("Happy".data, 0.8), ("Sad".data, 0.6)]⟩ ∧
    (detectFacialExpressionMultiFrame
        [some ⟨"happy".data, 0.7⟩, some ⟨"sad".data, 0.7⟩]).map (fun r => r.emotion) =
      some "happy".data := by
  refine ⟨?_, ?_, ?_⟩
  · intro frames hne
    obtain ⟨res, hres, hfm, hlk, _⟩ := detect_spec frames hne
    refine ⟨res, hres, hfm, ?_, hlk⟩
    intro p hp
    exact firstMax_is_max hfm p hp
  · have hg : ([(⟨"Happy".data, 0.8⟩ : EmotionScore), ⟨"Happy".data, 0.8⟩,
        ⟨"Happy".data, 0.8⟩, ⟨"Sad".data, 0.6⟩, ⟨"Sad".data, 0.6⟩]).foldl
          (fun g d => pushSample g d.emotion d.confidence) [] =
        [("Happy".data, [0.8, 0.8, 0.8]), ("Sad".data, [0.6, 0.6])] := rfl
    have ha : ([("Happy".data, [(0.8 : ℚ), 0.8, 0.8]), ("Sad".data, [0.6, 0.6])]).map
          (fun p => (p.1, p.2.foldl (fun a b => a + b) 0 / (p.2.length : ℚ))) =
        [("Happy".data, (0.8 : ℚ)), ("Sad".data, (0.6 : ℚ))] := by
      simp only [List.map_cons, List.map_nil, List.foldl_cons, List.foldl_nil,
        List.length_cons, List.length_nil]
      norm_num
    simp only [detectFacialExpressionMultiFrame, List.filterMap_cons,
      List.filterMap_nil, id_eq, hg, ha, List.foldl_cons, List.foldl_nil]
    norm_num
  · have hg : ([(⟨"happy".data, 0.7⟩ : EmotionScore), ⟨"sad".data, 0.7⟩]).foldl
          (fun g d => pushSample g d.emotion d.confidence) [] =
        [("happy".data, [0.7]), ("sad".data, [0.7])] := rfl
    have ha : ([("happy".data, [(0.7 : ℚ)]), ("sad".data, [0.7])]).map
          (fun p => (p.1, p.2.foldl (fun a b => a + b) 0 / (p.2.length : ℚ))) =
        [("happy".data, (0.7 : ℚ)), ("sad".data, (0.7 : ℚ))] := by
      simp only [List.map_cons, List.map_nil, List.foldl_cons, List.foldl_nil,
        List.length_cons, List.length_nil]
      norm_num
    simp only [detectFacialExpressionMultiFrame, List.filterMap_cons,
      List.filterMap_nil, id_eq, hg, ha, List.foldl_cons, List.foldl_nil]
    norm_num

/-- C4 witness: the general aggregation property instantiated on a single
collected sample. -/
theorem claim_C4_witness :
    (([some (⟨"happy".data, 0.9⟩ : EmotionScore)] : List (Option EmotionScore)).filterMap
      id).isEmpty = false ∧
    ∃ res, detectFacialExpressionMultiFrame [some ⟨"happy".data, 0.9⟩] = some res ∧
      firstMax res.allEmotions = some (res.emotion, res.confidence) ∧
      (∀ p ∈ res.allEmotions, p.2 ≤ res.confidence) ∧
      (∀ k, res.allEmotions.lookup k =
        if (confsOf k (([some ⟨"happy".data, 0.9⟩] : List (Option EmotionScore)).filterMap
            id)).isEmpty then none
        else some ((confsOf k (([some ⟨"happy".data, 0.9⟩] :
            List (Option EmotionScore)).filterMap id)).foldl (fun a b => a + b) 0 /
          ((confsOf k (([some ⟨"happy".data, 0.9⟩] :
            List (Option EmotionScore)).filterMap id)).length : ℚ))) :=
  ⟨by decide, claim_C4_aggregator_grouping.1 [some ⟨"happy".data, 0.9⟩] (by decide)⟩

/-- C3 witness: "calming" normalizes to "Neutral" via the calm keyword,
while " cAlM " (exact case-insensitive match after trimming) normalizes to
the canonical distinct member "Calm". -/
theorem claim_C3_witness :
    normalizeEmotion "calming".data = "Neutral".data ∧
      normalizeEmotion " cAlM ".data = "Calm".data :=
  ⟨claim_C3_calm_keyword_neutral.1 "calming".data (by decide) (by decide) (by decide)
      (by decide) (by decide) (by decide) (by decide) (by decide) (by decide) (by decide)
      (by decide) (by decide) (by decide),
    claim_C3_calm_keyword_neutral.2 " cAlM ".data (by decide)⟩

end EmotionFusion
